import Mathlib

/-!
Verification of the hashlock dependency-tree resolver.

The development shallowly embeds the TypeScript sources:
  * `src/registry.ts` (metadata shapes, `getMatchingVersions`),
  * `src/resolver.ts` (module-level metadata cache, greedy resolver,
    exhaustive tree generator),
  * `src/hasher.ts` (`serializeTree`, `hashTree`),
  * `src/index.ts` (`findTreeByHash`, `resolveAndHash`).

Modelling conventions:
  * JavaScript `Record`s and `Map`s are association lists in insertion order.
  * The external registry client (`fetchPackageMetadata`) is a pure function
    `String → Option PackageMetadata`; `none` models a failed fetch (thrown
    error).  The external `semver` collaborator is a pair of functions
    (`satisfies`, and a "descending order" comparator `vle`), mirroring
    the module boundary in `registry.ts`.
  * The external crypto digest is a function parameter `digest : String → String`
    standing for `createHash(algorithm).update(s).digest('hex')`.
  * Thrown errors are `Except.error` with the thrown message.
  * The module-level `metadataCache` plus an instrumentation log of the names
    passed to `fetchPackageMetadata` form an explicit state `FetchSt` threaded
    through every function; top-level operations receive the module state and
    return the updated one (the source never clears the cache).
  * Async generators are modelled as the lists of their yields.  The shared
    `treeCount` cell is mutated only at recursion depth 0, between root-level
    yields; we thread the counter through the computation in source order, so
    the inner budget checks (resolver.ts lines 150, 176, 220) read the counter
    value current at generator-invocation time.
  * Recursion on `depth`/`maxDepth` is made structural on
    `fuel = maxDepth + 1 - depth`, so `fuel = 0` is exactly the source's
    `depth > maxDepth` guard; root calls start with `fuel = maxDepth + 1`.
-/

/-- A resolved package occurrence.  `dependencies` is the `Map<string,
DependencyNode>` in insertion order (resolver.ts lines 7-11). -/
inductive DependencyNode where
  | mk (name version : String) (dependencies : List (String × DependencyNode))

/-- Name of a node. -/
def DependencyNode.name : DependencyNode → String
  | .mk n _ _ => n

/-- Version of a node. -/
def DependencyNode.version : DependencyNode → String
  | .mk _ v _ => v

/-- Children of a node. -/
def DependencyNode.dependencies : DependencyNode → List (String × DependencyNode)
  | .mk _ _ d => d

/-- One version record of a package (registry.ts lines 5-12).  Only the
`dependencies` field is read by the core; the other optional fields are
omitted.  `none` models an absent `dependencies` property. -/
structure PackageVersion where
  dependencies : Option (List (String × String))

/-- Package metadata (registry.ts lines 14-18); `versions` is the
`Record<string, PackageVersion>` in insertion order.  `dist-tags` is unused
by the core and omitted. -/
structure PackageMetadata where
  name : String
  versions : List (String × PackageVersion)

/-- The external registry client: `fetchPackageMetadata` (registry.ts lines
23-36), as a pure lookup.  `none` models a non-ok response (thrown error). -/
abbrev Registry := String → Option PackageMetadata

/-- The external `semver` collaborator used by `getMatchingVersions`
(registry.ts lines 41-56): `satisfies v range` mirrors
`semver.satisfies(version, versionRange)` (with the internal try/catch, so it
is total), and `vle a b` mirrors `semver.rcompare(a, b) <= 0`, i.e. `a`
sorts no later than `b` in descending version order. -/
structure Semver where
  satisfies : String → String → Bool
  vle : String → String → Bool

/-- The module-level mutable state of resolver.ts: the `metadataCache`
declared at module scope (line 21), plus an instrumentation log recording the
package names passed to `fetchPackageMetadata`, in order. -/
structure FetchSt where
  cache : List (String × PackageMetadata)
  log : List String

/-- Embeds `getCachedMetadata` (resolver.ts lines 33-40): return the cached
metadata if present, otherwise fetch and cache it.  A failed fetch (reg gives
`none`) is logged but not cached, and the caller observes the thrown error as
the `none` in the first component. -/
def getCachedMetadata (reg : Registry) (st : FetchSt) (packageName : String) :
    Option PackageMetadata × FetchSt :=
  match st.cache.lookup packageName with
  | some m => (some m, st)
  | none =>
    match reg packageName with
    | some m => (some m, ⟨st.cache ++ [(packageName, m)], st.log ++ [packageName]⟩)
    | none => (none, ⟨st.cache, st.log ++ [packageName]⟩)

/-- Embeds `getMatchingVersions` (registry.ts lines 41-56): keys of
`metadata.versions` that satisfy the range, sorted into descending version
order by the semver comparator. -/
def getMatchingVersions (sv : Semver) (metadata : PackageMetadata)
    (versionRange : String) : List String :=
  List.insertionSort (fun a b => sv.vle a b = true)
    ((metadata.versions.map Prod.fst).filter (fun v => sv.satisfies v versionRange))

/-- Embeds `getDependencies` (resolver.ts lines 45-47):
`versionData.dependencies || {}`. -/
def getDependencies (versionData : PackageVersion) : List (String × String) :=
  versionData.dependencies.getD []

/-- Embeds `createEmptyNode` (resolver.ts lines 26-28). -/
def createEmptyNode (name version : String) : DependencyNode :=
  .mk name version []

/-- Embeds the dependency loop of `resolveDependencyTree` (resolver.ts lines
80-99): for each declared `(depName, depRange)`, fetch metadata, take the
highest matching version and recurse via the `resolve` callback; any failure
(fetch, no matching version, recursive error) skips the dependency with a
warning.  `acc` accumulates `resolvedDeps` in `Map.set` insertion order. -/
def resolveDeps (reg : Registry) (sv : Semver)
    (resolve : String → String → FetchSt → Except String DependencyNode × FetchSt) :
    List (String × String) → List (String × DependencyNode) → FetchSt →
      List (String × DependencyNode) × FetchSt
  | [], acc, st => (acc, st)
  | (depName, depRange) :: rest, acc, st =>
    match getCachedMetadata reg st depName with
    | (none, st₁) => resolveDeps reg sv resolve rest acc st₁
    | (some depMetadata, st₁) =>
      match getMatchingVersions sv depMetadata depRange with
      | [] => resolveDeps reg sv resolve rest acc st₁
      | v :: _ =>
        match resolve depName v st₁ with
        | (.error _, st₂) => resolveDeps reg sv resolve rest acc st₂
        | (.ok node, st₂) => resolveDeps reg sv resolve rest (acc ++ [(depName, node)]) st₂

/-- Embeds `resolveDependencyTree` (resolver.ts lines 52-105).  The source
recursion carries `depth` and stops at `depth > maxDepth`; here the recursion
is structural on `fuel = maxDepth + 1 - depth`, so the `fuel = 0` equation is
the `depth > maxDepth` branch.  `resolving` is the per-path cycle set (the
source copies it per recursive call with `new Set(resolving)`). -/
def resolveDependencyTree (reg : Registry) (sv : Semver) :
    Nat → String → String → List String → FetchSt →
      Except String DependencyNode × FetchSt
  | 0, packageName, version, _, st => (.ok (createEmptyNode packageName version), st)
  | fuel+1, packageName, version, resolving, st =>
    let resolutionKey := packageName ++ "@" ++ version
    if resolving.contains resolutionKey then
      (.ok (createEmptyNode packageName version), st)
    else
      match getCachedMetadata reg st packageName with
      | (none, st₁) => (.error ("Failed to fetch " ++ packageName), st₁)
      | (some metadata, st₁) =>
        match metadata.versions.lookup version with
        | none =>
          (.error ("Version " ++ version ++ " not found for package " ++ packageName), st₁)
        | some versionData =>
          let r := resolveDeps reg sv
            (fun n v s =>
              resolveDependencyTree reg sv fuel n v (resolutionKey :: resolving) s)
            (getDependencies versionData) [] st₁
          (.ok (.mk packageName version r.1), r.2)

/-- `resolveDependencyTree` as invoked at the root (depth 0, empty cycle set):
fuel is `maxDepth + 1`. -/
def resolveDependencyTreeTop (reg : Registry) (sv : Semver) (maxDepth : Nat)
    (packageName version : String) (st : FetchSt) :
    Except String DependencyNode × FetchSt :=
  resolveDependencyTree reg sv (maxDepth + 1) packageName version [] st

/-- One children-map candidate produced by the combination generator. -/
abbrev Combination := List (String × DependencyNode)

/-- Type of the recursive exploration callback handed to the combination
generator: (package, version, counter, state) to (yields-or-thrown-error,
counter, state). -/
abbrev ExploreFn :=
  String → String → Nat → FetchSt → Except String (List DependencyNode) × Nat × FetchSt

/-- Embeds the yield loop of `exploreTree` (resolver.ts lines 175-185): for
each combination, stop once the budget is reached, increment the shared
counter at root level only, and yield the assembled node. -/
def emitLoop (maxTrees : Nat) (isRoot : Bool) (name version : String) :
    List Combination → Nat → List DependencyNode × Nat
  | [], count => ([], count)
  | c :: cs, count =>
    if count ≥ maxTrees then ([], count)
    else
      let count₁ := if isRoot then count + 1 else count
      let r := emitLoop maxTrees isRoot name version cs count₁
      (.mk name version c :: r.1, r.2)

/-- Embeds the version loop of `generateDependencyCombinations` (resolver.ts
lines 219-232): for each candidate version of `currentDep` (budget checked
first), explore its subtrees and pair every yielded subtree with every
combination of the remaining dependencies (`remCombos`, appended at the map's
end as `Map.set` does for a fresh key).  If the exploration callback throws,
the enclosing catch yields the remaining-only combinations (line 235). -/
def gDCVersions (explore : ExploreFn) (maxTrees : Nat) (currentDep : String)
    (remCombos : List Combination) :
    List String → Nat → FetchSt → List Combination × Nat × FetchSt
  | [], count, st => ([], count, st)
  | v :: vs, count, st =>
    if count ≥ maxTrees then ([], count, st)
    else
      match explore currentDep v count st with
      | (.error _, count₁, st₁) => (remCombos, count₁, st₁)
      | (.ok depYields, count₁, st₁) =>
        let combos := depYields.flatMap
          (fun d => remCombos.map (fun rem => rem ++ [(currentDep, d)]))
        let r := gDCVersions explore maxTrees currentDep remCombos vs count₁ st₁
        (combos ++ r.1, r.2.1, r.2.2)

/-- Embeds `generateDependencyCombinations` (resolver.ts lines 194-237).
An empty name list yields the single empty map.  Otherwise fetch the current
dependency's metadata (a failure skips it, line 233-236), truncate its
matching versions to the top 3 (line 210), skip it when no version matches
(line 212-215), and otherwise loop over the candidate versions.  The source
re-invokes the generator for the remaining dependencies once per yielded
subtree; every re-invocation returns the same sequence and touches only
already-cached metadata, so the model computes it once and reuses it. -/
def generateDependencyCombinations (reg : Registry) (sv : Semver) (maxTrees : Nat)
    (explore : ExploreFn) :
    List String → List (String × String) → Nat → FetchSt →
      List Combination × Nat × FetchSt
  | [], _, count, st => ([[]], count, st)
  | currentDep :: remainingDeps, allDeps, count, st =>
    match getCachedMetadata reg st currentDep with
    | (none, st₁) =>
      generateDependencyCombinations reg sv maxTrees explore remainingDeps allDeps count st₁
    | (some depMetadata, st₁) =>
      let depRange := (allDeps.lookup currentDep).getD ""
      let versionsToExplore := (getMatchingVersions sv depMetadata depRange).take 3
      if versionsToExplore.isEmpty then
        generateDependencyCombinations reg sv maxTrees explore remainingDeps allDeps count st₁
      else
        let r := generateDependencyCombinations reg sv maxTrees explore remainingDeps
          allDeps count st₁
        gDCVersions explore maxTrees currentDep r.1 versionsToExplore r.2.1 r.2.2

/-- Embeds `exploreTree` (resolver.ts lines 141-189), structurally on
`fuel = maxDepth + 1 - depth` (the `fuel = 0` equation is the
`depth > maxDepth` part of the guard on line 150).  The guard also yields a
placeholder when the budget is exhausted or the `name@version` pair is open on
the current path; an unknown version or an empty dependency record yields a
single placeholder leaf; a failed fetch for this node's own metadata is thrown
(`Except.error`). -/
def exploreTree (reg : Registry) (sv : Semver) (maxTrees : Nat) :
    Nat → Nat → String → String → List String → Nat → FetchSt →
      Except String (List DependencyNode) × Nat × FetchSt
  | 0, _, pkgName, pkgVersion, _, count, st =>
    (.ok [createEmptyNode pkgName pkgVersion], count, st)
  | fuel+1, depth, pkgName, pkgVersion, resolving, count, st =>
    let resolutionKey := pkgName ++ "@" ++ pkgVersion
    if count ≥ maxTrees ∨ resolving.contains resolutionKey then
      (.ok [createEmptyNode pkgName pkgVersion], count, st)
    else
      match getCachedMetadata reg st pkgName with
      | (none, st₁) => (.error ("Failed to fetch " ++ pkgName), count, st₁)
      | (some metadata, st₁) =>
        match metadata.versions.lookup pkgVersion with
        | none => (.ok [createEmptyNode pkgName pkgVersion], count, st₁)
        | some versionData =>
          let allDeps := getDependencies versionData
          if allDeps.isEmpty then (.ok [createEmptyNode pkgName pkgVersion], count, st₁)
          else
            let r := generateDependencyCombinations reg sv maxTrees
              (fun n v c s =>
                exploreTree reg sv maxTrees fuel (depth + 1) n v
                  (resolutionKey :: resolving) c s)
              (allDeps.map Prod.fst) allDeps count st₁
            let e := emitLoop maxTrees (depth == 0) pkgName pkgVersion r.1 r.2.1
            (.ok e.1, e.2, r.2.2)

/-- Embeds `generateAllPossibleTrees` (resolver.ts lines 110-127): a fresh
`treeCount` cell starting at 0, and a root `exploreTree` call at depth 0 with
an empty cycle set.  The result is the list of yielded root trees (or the
thrown error) together with the updated module state. -/
def generateAllPossibleTrees (reg : Registry) (sv : Semver)
    (maxDepth maxTrees : Nat) (packageName version : String) (st : FetchSt) :
    Except String (List DependencyNode) × FetchSt :=
  let r := exploreTree reg sv maxTrees (maxDepth + 1) 0 packageName version [] 0 st
  (r.1, r.2.2)

/-- Comparator on code-point lists; `charListLe a b` means `a` sorts no later
than `b` in lexicographic order. -/
def charListLe : List Char → List Char → Bool
  | [], _ => true
  | _ :: _, [] => false
  | a :: as, b :: bs =>
    if a < b then true else if b < a then false else charListLe as bs

/-- Models `a.localeCompare(b) <= 0` (hasher.ts line 19) as code-point
lexicographic order on the names. -/
def nameLe (a b : String) : Bool := charListLe a.data b.data

/-- Embeds the child sort of `serializeTree` (hasher.ts line 19):
`Array.from(n.dependencies.entries()).sort(([a], [b]) => a.localeCompare(b))`,
a stable sort of the entries by name, for any entry value type. -/
def sortPairs {β : Type} (l : List (String × β)) : List (String × β) :=
  List.insertionSort (fun a b => nameLe a.1 b.1 = true) l

/-- Embeds `'  '.repeat(indent)` (hasher.ts line 15). -/
def indentStr : Nat → String
  | 0 => ""
  | n+1 => "  " ++ indentStr n

mutual

/-- Embeds the inner `serialize` of `serializeTree` (hasher.ts lines 14-24):
the lines pushed to `parts` for one node — its own line followed by the lines
of its children visited in ascending name order.  (The source sorts the
entries and then recurses into each; since each child's lines depend only on
its own entry, this equals recursing first and sorting the per-child line
blocks by name, which is how the recursion is made structural here.) -/
def serializeParts : DependencyNode → Nat → List String
  | .mk name version deps, indent =>
    (indentStr indent ++ name ++ "@" ++ version) ::
      (sortPairs (serializeChildren deps (indent + 1))).flatMap (fun p => p.2)

/-- The per-child line blocks: each entry `(name, child)` paired with the
lines `serialize` emits for that child. -/
def serializeChildren : List (String × DependencyNode) → Nat → List (String × List String)
  | [], _ => []
  | (k, c) :: rest, indent => (k, serializeParts c indent) :: serializeChildren rest indent

end

/-- Embeds `serializeTree` (hasher.ts lines 11-28): the parts joined by a
single newline, no trailing newline. -/
def serializeTree (node : DependencyNode) : String :=
  String.intercalate "\n" (serializeParts node 0)

/-- Embeds `hashTree` (hasher.ts lines 33-38); `digest` is the external
crypto collaborator `s ↦ createHash(algorithm).update(s).digest('hex')` for
the selected algorithm. -/
def hashTree (digest : String → String) (node : DependencyNode) : String :=
  digest (serializeTree node)

/-- Result record of `findTreeByHash` (index.ts lines 23-38). -/
structure FindTreeByHashResult where
  tree : DependencyNode
  hash : String
  treesExplored : Nat

/-- Embeds the candidate loop of `findTreeByHash` (index.ts lines 67-81):
pull candidates in generation order, increment `treesExplored` per candidate,
return on the first hash match, `none` when exhausted. -/
def searchLoop (digest : String → String) (targetHash : String) :
    List DependencyNode → Nat → Option FindTreeByHashResult
  | [], _ => none
  | tree :: rest, treesExplored =>
    let n := treesExplored + 1
    let h := hashTree digest tree
    if h == targetHash then some ⟨tree, h, n⟩ else searchLoop digest targetHash rest n

/-- Embeds `findTreeByHash` (index.ts lines 57-82). -/
def findTreeByHash (reg : Registry) (sv : Semver) (digest : String → String)
    (maxDepth maxTrees : Nat) (packageName version targetHash : String)
    (st : FetchSt) : Except String (Option FindTreeByHashResult) × FetchSt :=
  match generateAllPossibleTrees reg sv maxDepth maxTrees packageName version st with
  | (.error e, st') => (.error e, st')
  | (.ok trees, st') => (.ok (searchLoop digest targetHash trees 0), st')

/-- Embeds `resolveAndHash` (index.ts lines 99-113): generate just one tree
(the generator is invoked with `maxTrees = 1`, line 107), return it with its
hash, and throw `Failed to resolve ...` if the generator yields nothing. -/
def resolveAndHash (reg : Registry) (sv : Semver) (digest : String → String)
    (maxDepth : Nat) (packageName version : String) (st : FetchSt) :
    Except String (DependencyNode × String) × FetchSt :=
  match generateAllPossibleTrees reg sv maxDepth 1 packageName version st with
  | (.error e, st') => (.error e, st')
  | (.ok [], st') => (.error ("Failed to resolve " ++ packageName ++ "@" ++ version), st')
  | (.ok (tree :: _), st') => (.ok (tree, hashTree digest tree), st')

/-! ## Structural measures and canonical forms used by the analysis -/

mutual

/-- Number of nodes of a tree. -/
def nodeCount : DependencyNode → Nat
  | .mk _ _ deps => 1 + nodeCountChildren deps

/-- Total number of nodes below a children list. -/
def nodeCountChildren : List (String × DependencyNode) → Nat
  | [] => 0
  | (_, c) :: rest => nodeCount c + nodeCountChildren rest

end

mutual

/-- Height of a tree (a leaf has height 1). -/
def heightN : DependencyNode → Nat
  | .mk _ _ deps => 1 + heightChildren deps

/-- Maximum height among a children list (0 when empty). -/
def heightChildren : List (String × DependencyNode) → Nat
  | [] => 0
  | (_, c) :: rest => max (heightN c) (heightChildren rest)

end

mutual

/-- Canonical form of a tree: children recursively canonicalized and sorted
ascending by name.  Two trees have the same canonical form exactly when they
carry the same name, version and the same set-keyed children mapping at every
node, differing only in map insertion order. -/
def canon : DependencyNode → DependencyNode
  | .mk name version deps => .mk name version (sortPairs (canonChildren deps))

/-- Canonical forms of a children list, keeping keys. -/
def canonChildren : List (String × DependencyNode) → List (String × DependencyNode)
  | [] => []
  | (k, c) :: rest => (k, canon c) :: canonChildren rest

end

mutual

/-- Modelled from the spec: the pre-order listing of a tree — each node as
`(depth, name, version)`, children visited in ascending name order. -/
def preorderNodes : DependencyNode → Nat → List (Nat × String × String)
  | .mk name version deps, depth =>
    (depth, name, version) ::
      (sortPairs (preorderChildren deps (depth + 1))).flatMap (fun p => p.2)

/-- Pre-order listings of a children list, keyed by the child names. -/
def preorderChildren :
    List (String × DependencyNode) → Nat → List (String × List (Nat × String × String))
  | [], _ => []
  | (k, c) :: rest, depth => (k, preorderNodes c depth) :: preorderChildren rest depth

end

/-- Modelled from the spec: the line `"<indent><name>@<version>"` emitted for
a pre-order entry. -/
def lineOf (e : Nat × String × String) : String :=
  indentStr e.1 ++ e.2.1 ++ "@" ++ e.2.2

/-! ## Fixtures

The fixture of spec §8: package `A@1.0.0` declares the dependency
`B: "^1.0.0"`; the registry knows `B@1.0.0` and `B@1.1.0`, both with no
further dependencies.  `semverFix` instantiates the external semver
collaborator on this version universe: both versions satisfy `^1.0.0`, and
the comparator sorts `1.1.0` before `1.0.0` (descending). -/

/-- Fixture metadata for package A. -/
def metaA : PackageMetadata := ⟨"A", [("1.0.0", ⟨some [("B", "^1.0.0")]⟩)]⟩

/-- Fixture metadata for package B. -/
def metaB : PackageMetadata := ⟨"B", [("1.0.0", ⟨none⟩), ("1.1.0", ⟨none⟩)]⟩

/-- The fixture registry. -/
def fixtureReg : Registry
  | "A" => some metaA
  | "B" => some metaB
  | _ => none

/-- Fixture instance of the external semver collaborator. -/
def semverFix : Semver where
  satisfies := fun v r => r == "^1.0.0" && (v == "1.0.0" || v == "1.1.0")
  vle := fun a b => a == b || (a == "1.1.0" && b == "1.0.0")

/-- Initial module state: empty cache, no fetches performed yet. -/
def st0 : FetchSt := ⟨[], []⟩

/-- Module state after the fixture's two fetches. -/
def fixStF : FetchSt := ⟨[("A", metaA), ("B", metaB)], ["A", "B"]⟩

/-- The fixture tree that resolves B at 1.1.0. -/
def fixTreeHigh : DependencyNode := .mk "A" "1.0.0" [("B", .mk "B" "1.1.0" [])]

/-- The fixture tree that resolves B at 1.0.0. -/
def fixTreeLow : DependencyNode := .mk "A" "1.0.0" [("B", .mk "B" "1.0.0" [])]

/-- Cyclic fixture metadata: `A@1.0.0` depends on B and `B@1.0.0` depends
back on A. -/
def metaBCyc : PackageMetadata := ⟨"B", [("1.0.0", ⟨some [("A", "^1.0.0")]⟩)]⟩

/-- The cyclic registry (A and B depend on each other). -/
def cyclicReg : Registry
  | "A" => some metaA
  | "B" => some metaBCyc
  | _ => none

/-- The tree both resolvers produce on the cyclic registry: the repeated
`A@1.0.0` at the cycle point is a placeholder leaf. -/
def cycTree : DependencyNode :=
  .mk "A" "1.0.0" [("B", .mk "B" "1.0.0" [("A", .mk "A" "1.0.0" [])])]

/-- Module state after the cyclic fixture's two fetches. -/
def cycStF : FetchSt := ⟨[("A", metaA), ("B", metaBCyc)], ["A", "B"]⟩

/-! ## Properties of the name comparator and the child sort -/

/-- The code-point comparator is total. -/
theorem charListLe_total : ∀ a b : List Char, charListLe a b = true ∨ charListLe b a = true
  | [], _ => .inl rfl
  | _ :: _, [] => .inr rfl
  | a :: as, b :: bs => by
    by_cases hab : a < b
    · exact .inl (by simp [charListLe, hab])
    · by_cases hba : b < a
      · exact .inr (by simp [charListLe, hba])
      · rcases charListLe_total as bs with h | h
        · exact .inl (by simp [charListLe, hab, hba, h])
        · exact .inr (by simp [charListLe, hba, hab, h])

/-- The code-point comparator is transitive. -/
theorem charListLe_trans : ∀ a b c : List Char,
    charListLe a b = true → charListLe b c = true → charListLe a c = true
  | [], _, _, _, _ => rfl
  | _ :: _, [], _, h, _ => by simp [charListLe] at h
  | _ :: _, _ :: _, [], _, h => by simp [charListLe] at h
  | a :: as, b :: bs, c :: cs, h₁, h₂ => by
    by_cases hab : a < b
    · by_cases hbc : b < c
      · simp [charListLe, lt_trans hab hbc]
      · by_cases hcb : c < b
        · simp [charListLe, hbc, hcb] at h₂
        · have hbec : b = c := le_antisymm (not_lt.mp hcb) (not_lt.mp hbc)
          subst hbec
          simp [charListLe, hab]
    · by_cases hba : b < a
      · simp [charListLe, hab, hba] at h₁
      · have haeb : a = b := le_antisymm (not_lt.mp hba) (not_lt.mp hab)
        subst haeb
        simp only [charListLe, if_neg (lt_irrefl a)] at h₁
        by_cases hac : a < c
        · simp [charListLe, hac]
        · by_cases hca : c < a
          · simp [charListLe, hac, hca] at h₂
          · simp only [charListLe, if_neg hac, if_neg hca] at h₂ ⊢
            exact charListLe_trans as bs cs h₁ h₂

/-- The name order on keyed pairs is total. -/
instance pairNameLeTotal {β : Type} :
    IsTotal (String × β) (fun a b => nameLe a.1 b.1 = true) :=
  ⟨fun a b => charListLe_total a.1.data b.1.data⟩

/-- The name order on keyed pairs is transitive. -/
instance pairNameLeTrans {β : Type} :
    IsTrans (String × β) (fun a b => nameLe a.1 b.1 = true) :=
  ⟨fun _ _ _ h₁ h₂ => charListLe_trans _ _ _ h₁ h₂⟩

/-- Sorting the children is a permutation of the children. -/
theorem sortPairs_perm {β : Type} (l : List (String × β)) : (sortPairs l).Perm l :=
  List.perm_insertionSort _ l

/-- The sorted children are sorted by name. -/
theorem sortPairs_sorted {β : Type} (l : List (String × β)) :
    List.Sorted (fun a b : String × β => nameLe a.1 b.1 = true) (sortPairs l) :=
  List.sorted_insertionSort _ l

/-- Sorting the children twice is the same as sorting once. -/
theorem sortPairs_idem {β : Type} (l : List (String × β)) :
    sortPairs (sortPairs l) = sortPairs l :=
  List.Sorted.insertionSort_eq (sortPairs_sorted l)

/-- Inserting into a sorted list commutes with mapping a key-preserving
function over the values. -/
theorem orderedInsert_map_pair {β γ : Type} (g : β → γ) (a : String × β) :
    ∀ l : List (String × β),
      List.orderedInsert (fun x y => nameLe x.1 y.1 = true) (a.1, g a.2)
          (l.map (fun p => (p.1, g p.2))) =
        (List.orderedInsert (fun x y => nameLe x.1 y.1 = true) a l).map
          (fun p => (p.1, g p.2))
  | [] => rfl
  | b :: l => by
    simp only [List.map_cons, List.orderedInsert]
    by_cases h : nameLe a.1 b.1 = true
    · simp [h]
    · simp [h, orderedInsert_map_pair g a l]

/-- The stable sort by name commutes with mapping a key-preserving function
over the values. -/
theorem sortPairs_map_pair {β γ : Type} (g : β → γ) :
    ∀ l : List (String × β),
      sortPairs (l.map (fun p => (p.1, g p.2))) =
        (sortPairs l).map (fun p => (p.1, g p.2))
  | [] => rfl
  | a :: l => by
    simp only [List.map_cons, sortPairs, List.insertionSort]
    rw [show List.insertionSort (fun x y : String × γ => nameLe x.1 y.1 = true)
          (l.map (fun p => (p.1, g p.2))) =
        sortPairs (l.map (fun p => (p.1, g p.2))) from rfl,
      sortPairs_map_pair g l]
    exact orderedInsert_map_pair g a (sortPairs l)

/-! ## Serialization lemmas -/

/-- `serializeChildren` is the key-preserving map of `serializeParts` over the
children list. -/
theorem serializeChildren_eq_map :
    ∀ (l : List (String × DependencyNode)) (d : Nat),
      serializeChildren l d = l.map (fun p => (p.1, serializeParts p.2 d))
  | [], _ => rfl
  | (k, c) :: rest, d => by
    simp only [serializeChildren, List.map_cons]
    rw [serializeChildren_eq_map rest d]

mutual

/-- Serialization only depends on the canonical form of a tree. -/
theorem serializeParts_canon :
    ∀ (t : DependencyNode) (d : Nat), serializeParts (canon t) d = serializeParts t d
  | .mk n v deps, d => by
    simp only [canon, serializeParts]
    have h1 : serializeChildren (sortPairs (canonChildren deps)) (d + 1) =
        sortPairs (serializeChildren (canonChildren deps) (d + 1)) := by
      rw [serializeChildren_eq_map, serializeChildren_eq_map]
      exact (sortPairs_map_pair (fun x => serializeParts x (d + 1))
        (canonChildren deps)).symm
    rw [h1, sortPairs_idem, serializeChildren_canon deps (d + 1)]

/-- Per-child serialization only depends on the canonical forms. -/
theorem serializeChildren_canon :
    ∀ (l : List (String × DependencyNode)) (d : Nat),
      serializeChildren (canonChildren l) d = serializeChildren l d
  | [], _ => rfl
  | (k, c) :: rest, d => by
    simp only [canonChildren, serializeChildren]
    rw [serializeParts_canon c d, serializeChildren_canon rest d]

end

mutual

/-- The serialized parts are exactly the pre-order listing rendered as
lines. -/
theorem serializeParts_eq_preorder :
    ∀ (t : DependencyNode) (d : Nat),
      serializeParts t d = (preorderNodes t d).map lineOf
  | .mk n v deps, d => by
    simp only [serializeParts, preorderNodes, List.map_cons]
    rw [serializeChildren_eq_preorder deps (d + 1),
      sortPairs_map_pair (fun x => x.map lineOf) (preorderChildren deps (d + 1)),
      List.flatMap_map, List.map_flatMap]
    rfl

/-- Per-child serialized blocks are the pre-order blocks rendered as lines. -/
theorem serializeChildren_eq_preorder :
    ∀ (l : List (String × DependencyNode)) (d : Nat),
      serializeChildren l d =
        (preorderChildren l d).map (fun p => (p.1, p.2.map lineOf))
  | [], _ => rfl
  | (k, c) :: rest, d => by
    simp only [serializeChildren, preorderChildren, List.map_cons]
    rw [serializeParts_eq_preorder c d, serializeChildren_eq_preorder rest d]

end

mutual

/-- One serialized line per node. -/
theorem serializeParts_length :
    ∀ (t : DependencyNode) (d : Nat), (serializeParts t d).length = nodeCount t
  | .mk n v deps, d => by
    simp only [serializeParts, nodeCount, List.length_cons, List.length_flatMap]
    have hperm :
        ((sortPairs (serializeChildren deps (d + 1))).map
            (List.length ∘ fun p : String × List String => p.2)).Perm
          ((serializeChildren deps (d + 1)).map
            (List.length ∘ fun p : String × List String => p.2)) :=
      (sortPairs_perm _).map _
    rw [hperm.sum_eq, serializeChildren_sum_length deps (d + 1)]
    omega

/-- The lines of the children blocks count the nodes below. -/
theorem serializeChildren_sum_length :
    ∀ (l : List (String × DependencyNode)) (d : Nat),
      ((serializeChildren l d).map
          (List.length ∘ fun p : String × List String => p.2)).sum =
        nodeCountChildren l
  | [], _ => rfl
  | (k, c) :: rest, d => by
    simp only [serializeChildren, nodeCountChildren, List.map_cons, List.sum_cons,
      Function.comp]
    rw [serializeParts_length c d, serializeChildren_sum_length rest d]

end

/-! ## Height bounds: the depth/cycle guards bound the recursion -/

/-- A bound on all children heights bounds `heightChildren`. -/
theorem heightChildren_le {H : Nat} :
    ∀ l : List (String × DependencyNode),
      (∀ p ∈ l, heightN p.2 ≤ H) → heightChildren l ≤ H
  | [], _ => Nat.zero_le H
  | (k, c) :: rest, h => by
    simp only [heightChildren]
    exact max_le (h (k, c) (List.mem_cons_self _ _))
      (heightChildren_le rest (fun p hp => h p (List.mem_cons_of_mem _ hp)))

/-- Every dependency resolved by the greedy dependency loop obeys the height
bound of the recursive callback. -/
theorem resolveDeps_height {reg : Registry} {sv : Semver} {H : Nat}
    {resolve : String → String → FetchSt → Except String DependencyNode × FetchSt}
    (hres : ∀ n v s t s', resolve n v s = (.ok t, s') → heightN t ≤ H) :
    ∀ (deps : List (String × String)) (acc : List (String × DependencyNode))
      (st : FetchSt),
      (∀ p ∈ acc, heightN p.2 ≤ H) →
      ∀ p ∈ (resolveDeps reg sv resolve deps acc st).1, heightN p.2 ≤ H
  | [], acc, st, hacc, p, hp => hacc p hp
  | (depName, depRange) :: rest, acc, st, hacc, p, hp => by
    simp only [resolveDeps] at hp
    split at hp
    · exact resolveDeps_height hres rest acc _ hacc p hp
    · split at hp
      · exact resolveDeps_height hres rest acc _ hacc p hp
      · split at hp
        · exact resolveDeps_height hres rest acc _ hacc p hp
        · next node st₂ heq =>
          refine resolveDeps_height hres rest _ _ ?_ p hp
          intro q hq
          rcases List.mem_append.mp hq with h | h
          · exact hacc q h
          · rcases List.mem_singleton.mp h with rfl
            exact hres _ _ _ _ _ heq

/-- Every tree the greedy resolver returns has height at most `fuel + 1`
(for root calls, `maxDepth + 2`): the depth guard and the per-path cycle set
bound the recursion on every metadata graph, cyclic ones included. -/
theorem resolveDependencyTree_height {reg : Registry} {sv : Semver} :
    ∀ (fuel : Nat) (n v : String) (res : List String) (st : FetchSt)
      (t : DependencyNode) (st' : FetchSt),
      resolveDependencyTree reg sv fuel n v res st = (.ok t, st') →
      heightN t ≤ fuel + 1
  | 0, n, v, res, st, t, st', h => by
    simp only [resolveDependencyTree, Prod.mk.injEq, Except.ok.injEq] at h
    rcases h with ⟨rfl, rfl⟩
    simp [createEmptyNode, heightN, heightChildren]
  | fuel+1, n, v, res, st, t, st', h => by
    simp only [resolveDependencyTree] at h
    split at h
    · simp only [Prod.mk.injEq, Except.ok.injEq] at h
      rcases h with ⟨rfl, rfl⟩
      simp [createEmptyNode, heightN, heightChildren]
    · split at h
      · simp at h
      · next depMetadata st₁ heq1 =>
        split at h
        · simp at h
        · next versionData heq2 =>
          simp only [Prod.mk.injEq, Except.ok.injEq] at h
          rcases h with ⟨rfl, rfl⟩
          simp only [heightN]
          have hb := heightChildren_le _
            (@resolveDeps_height reg sv (fuel + 1)
              (fun n' v' s =>
                resolveDependencyTree reg sv fuel n' v' ((n ++ "@" ++ v) :: res) s)
              (fun n' v' s t' s' hh =>
                resolveDependencyTree_height fuel n' v' ((n ++ "@" ++ v) :: res) s t' s' hh)
              (getDependencies versionData) [] st₁
              (fun p hp => absurd hp (List.not_mem_nil p)))
          omega

/-- Every node yielded by the emission loop wraps one of the generated
combinations. -/
theorem emitLoop_mem {mt : Nat} {isRoot : Bool} {n v : String} :
    ∀ (cs : List Combination) (count : Nat),
      ∀ x ∈ (emitLoop mt isRoot n v cs count).1, ∃ c ∈ cs, x = .mk n v c
  | [], _, x, hx => absurd hx (List.not_mem_nil x)
  | c :: cs, count, x, hx => by
    simp only [emitLoop] at hx
    split at hx
    · exact absurd hx (List.not_mem_nil x)
    · rcases List.mem_cons.mp hx with h | h
      · exact ⟨c, List.mem_cons_self _ _, h⟩
      · obtain ⟨c', hc', hx'⟩ := emitLoop_mem cs _ x h
        exact ⟨c', List.mem_cons_of_mem _ hc', hx'⟩

/-- Subtrees inside combinations produced by the version loop obey the height
bound of the exploration callback and of the remaining combinations. -/
theorem gDCVersions_height {explore : ExploreFn} {mt : Nat} {dep : String}
    {remCombos : List Combination} {H : Nat}
    (hex : ∀ n v c s l c' s', explore n v c s = (.ok l, c', s') →
      ∀ t ∈ l, heightN t ≤ H)
    (hrem : ∀ comb ∈ remCombos, ∀ p ∈ comb, heightN p.2 ≤ H) :
    ∀ (vs : List String) (count : Nat) (st : FetchSt),
      ∀ comb ∈ (gDCVersions explore mt dep remCombos vs count st).1,
        ∀ p ∈ comb, heightN p.2 ≤ H
  | [], _, _, comb, hcomb => absurd hcomb (List.not_mem_nil comb)
  | v :: vs, count, st, comb, hcomb => by
    simp only [gDCVersions] at hcomb
    split at hcomb
    · exact absurd hcomb (List.not_mem_nil comb)
    · split at hcomb
      · exact hrem comb hcomb
      · next depYields count₁ st₁ heq =>
        rcases List.mem_append.mp hcomb with h | h
        · obtain ⟨d, hd, hmap⟩ := List.mem_flatMap.mp h
          obtain ⟨rem, hremm, rfl⟩ := List.mem_map.mp hmap
          intro p hp
          rcases List.mem_append.mp hp with hp' | hp'
          · exact hrem rem hremm p hp'
          · rcases List.mem_singleton.mp hp' with rfl
            exact hex _ _ _ _ _ _ _ heq d hd
        · exact gDCVersions_height hex hrem vs count₁ st₁ comb h

/-- Subtrees inside combinations produced by the combination generator obey
the height bound of the exploration callback. -/
theorem gDC_height {reg : Registry} {sv : Semver} {mt : Nat}
    {explore : ExploreFn} {H : Nat}
    (hex : ∀ n v c s l c' s', explore n v c s = (.ok l, c', s') →
      ∀ t ∈ l, heightN t ≤ H) :
    ∀ (depNames : List String) (allDeps : List (String × String)) (count : Nat)
      (st : FetchSt),
      ∀ comb ∈
        (generateDependencyCombinations reg sv mt explore depNames allDeps count st).1,
        ∀ p ∈ comb, heightN p.2 ≤ H
  | [], _, count, st, comb, hcomb => by
    simp only [generateDependencyCombinations] at hcomb
    rcases List.mem_singleton.mp hcomb with rfl
    intro p hp
    exact absurd hp (List.not_mem_nil p)
  | currentDep :: remainingDeps, allDeps, count, st, comb, hcomb => by
    simp only [generateDependencyCombinations] at hcomb
    split at hcomb
    · exact gDC_height hex remainingDeps allDeps count _ comb hcomb
    · split at hcomb
      · exact gDC_height hex remainingDeps allDeps count _ comb hcomb
      · exact gDCVersions_height hex
          (gDC_height hex remainingDeps allDeps count _) _ _ _ comb hcomb

/-- Every tree the exhaustive generator yields has height at most `fuel + 1`
(for root calls, `maxDepth + 2`): the guard on line 150 of resolver.ts bounds
the recursion on every metadata graph, cyclic ones included. -/
theorem exploreTree_height {reg : Registry} {sv : Semver} {mt : Nat} :
    ∀ (fuel depth : Nat) (n v : String) (res : List String) (count : Nat)
      (st : FetchSt) (l : List DependencyNode) (count' : Nat) (st' : FetchSt),
      exploreTree reg sv mt fuel depth n v res count st = (.ok l, count', st') →
      ∀ t ∈ l, heightN t ≤ fuel + 1
  | 0, depth, n, v, res, count, st, l, count', st', h => by
    simp only [exploreTree, Prod.mk.injEq, Except.ok.injEq] at h
    rcases h with ⟨rfl, -, -⟩
    intro t ht
    rcases List.mem_singleton.mp ht with rfl
    simp [createEmptyNode, heightN, heightChildren]
  | fuel+1, depth, n, v, res, count, st, l, count', st', h => by
    simp only [exploreTree] at h
    split at h
    · simp only [Prod.mk.injEq, Except.ok.injEq] at h
      rcases h with ⟨rfl, -, -⟩
      intro t ht
      rcases List.mem_singleton.mp ht with rfl
      simp [createEmptyNode, heightN, heightChildren]
    · split at h
      · simp at h
      · next metadata st₁ heq1 =>
        split at h
        · simp only [Prod.mk.injEq, Except.ok.injEq] at h
          rcases h with ⟨rfl, -, -⟩
          intro t ht
          rcases List.mem_singleton.mp ht with rfl
          simp [createEmptyNode, heightN, heightChildren]
        · next versionData heq2 =>
          split at h
          · simp only [Prod.mk.injEq, Except.ok.injEq] at h
            rcases h with ⟨rfl, -, -⟩
            intro t ht
            rcases List.mem_singleton.mp ht with rfl
            simp [createEmptyNode, heightN, heightChildren]
          · simp only [Prod.mk.injEq, Except.ok.injEq] at h
            rcases h with ⟨rfl, -, -⟩
            intro t ht
            obtain ⟨c, hc, rfl⟩ := emitLoop_mem _ _ t ht
            simp only [heightN]
            have hb := heightChildren_le c
              (@gDC_height reg sv mt
                (fun n' v' c' s' =>
                  exploreTree reg sv mt fuel (depth + 1) n' v'
                    ((n ++ "@" ++ v) :: res) c' s')
                (fuel + 1)
                (fun n' v' c' s' l' c'' s'' hh =>
                  exploreTree_height fuel (depth + 1) n' v'
                    ((n ++ "@" ++ v) :: res) c' s' l' c'' s'' hh)
                (List.map Prod.fst (getDependencies versionData))
                (getDependencies versionData) count st₁ c hc)
            omega

/-! ## Budget lemmas -/

/-- The root-level emission loop yields at most `maxTrees - count` trees:
the counter is checked before each yield and incremented at each yield. -/
theorem emitLoop_length {mt : Nat} {n v : String} :
    ∀ (cs : List Combination) (count : Nat),
      (emitLoop mt true n v cs count).1.length ≤ mt - count
  | [], count => Nat.zero_le _
  | c :: cs, count => by
    simp only [emitLoop]
    split
    · simp
    · next hlt =>
      simp only [List.length_cons, if_true]
      have := @emitLoop_length mt n v cs (count + 1)
      omega

/-- The non-root emission loop never touches the shared counter. -/
theorem emitLoop_count {mt : Nat} {n v : String} :
    ∀ (cs : List Combination) (count : Nat),
      (emitLoop mt false n v cs count).2 = count
  | [], _ => rfl
  | c :: cs, count => by
    simp only [emitLoop]
    split
    · rfl
    · exact emitLoop_count cs count

/-- The version loop never touches the shared counter when its exploration
callback does not. -/
theorem gDCVersions_count {explore : ExploreFn} {mt : Nat} {dep : String}
    {remCombos : List Combination}
    (hex : ∀ n v c s, (explore n v c s).2.1 = c) :
    ∀ (vs : List String) (count : Nat) (st : FetchSt),
      (gDCVersions explore mt dep remCombos vs count st).2.1 = count
  | [], _, _ => rfl
  | v :: vs, count, st => by
    simp only [gDCVersions]
    split
    · rfl
    · split
      · next e count₁ st₁ heq =>
        have := hex dep v count st
        rw [heq] at this
        exact this
      · next depYields count₁ st₁ heq =>
        have h1 := hex dep v count st
        rw [heq] at h1
        rw [gDCVersions_count hex vs count₁ st₁]
        exact h1

/-- The combination generator never touches the shared counter when its
exploration callback does not. -/
theorem gDC_count {reg : Registry} {sv : Semver} {mt : Nat} {explore : ExploreFn}
    (hex : ∀ n v c s, (explore n v c s).2.1 = c) :
    ∀ (depNames : List String) (allDeps : List (String × String)) (count : Nat)
      (st : FetchSt),
      (generateDependencyCombinations reg sv mt explore depNames allDeps count st).2.1 =
        count
  | [], _, _, _ => rfl
  | currentDep :: remainingDeps, allDeps, count, st => by
    simp only [generateDependencyCombinations]
    split
    · exact gDC_count hex remainingDeps allDeps count _
    · split
      · exact gDC_count hex remainingDeps allDeps count _
      · rw [gDCVersions_count hex]
        exact gDC_count hex remainingDeps allDeps count _

/-- Non-root exploration never touches the shared counter: only yields at
depth 0 increment it. -/
theorem exploreTree_count {reg : Registry} {sv : Semver} {mt : Nat} :
    ∀ (fuel depth : Nat) (n v : String) (res : List String) (count : Nat)
      (st : FetchSt), depth ≠ 0 →
      (exploreTree reg sv mt fuel depth n v res count st).2.1 = count
  | 0, depth, n, v, res, count, st, hd => rfl
  | fuel+1, depth, n, v, res, count, st, hd => by
    simp only [exploreTree]
    split
    · rfl
    · split
      · rfl
      · split
        · rfl
        · split
          · rfl
          · have hroot : (depth == 0) = false := by
              simp [Nat.beq_eq_true_eq, hd]
            rw [hroot]
            rw [emitLoop_count]
            exact gDC_count
              (fun n' v' c' s' =>
                exploreTree_count fuel (depth + 1) n' v' _ c' s' (Nat.succ_ne_zero depth))
              _ _ count _

/-! ## The generator always yields when the root metadata is available -/

/-- The emission loop yields at least one tree when a combination exists and
the budget is not yet exhausted. -/
theorem emitLoop_pos {mt : Nat} {isRoot : Bool} {n v : String} :
    ∀ (cs : List Combination) (count : Nat), cs ≠ [] → count < mt →
      1 ≤ (emitLoop mt isRoot n v cs count).1.length
  | [], _, hne, _ => absurd rfl hne
  | c :: cs, count, _, hlt => by
    simp only [emitLoop]
    split
    · omega
    · simp

/-- The version loop yields at least one combination when the callback
preserves the counter and yields at least once, combinations for the
remaining dependencies exist, and the budget is not exhausted. -/
theorem gDCVersions_ne_nil {explore : ExploreFn} {mt : Nat} {dep : String}
    {remCombos : List Combination}
    (hexn : ∀ n v c s l c' s', explore n v c s = (.ok l, c', s') → l ≠ [])
    (hrem : remCombos ≠ []) :
    ∀ (vs : List String) (count : Nat) (st : FetchSt), vs ≠ [] → count < mt →
      (gDCVersions explore mt dep remCombos vs count st).1 ≠ []
  | [], _, _, hvs, _ => absurd rfl hvs
  | v :: vs, count, st, _, hlt => by
    simp only [gDCVersions]
    split
    · omega
    · split
      · exact hrem
      · next depYields count₁ st₁ heq =>
        have hd : depYields ≠ [] := hexn _ _ _ _ _ _ _ heq
        intro happ
        rcases List.append_eq_nil.mp happ with ⟨hfm, -⟩
        rcases depYields with _ | ⟨d, ds⟩
        · exact hd rfl
        · rw [List.flatMap_cons] at hfm
          rcases List.append_eq_nil.mp hfm with ⟨hmap, -⟩
          exact hrem (List.map_eq_nil_iff.mp hmap)

/-- The combination generator always yields at least one combination while
the budget is not exhausted (the empty combination when every dependency is
dropped). -/
theorem gDC_ne_nil {reg : Registry} {sv : Semver} {mt : Nat} {explore : ExploreFn}
    (hexc : ∀ n v c s, (explore n v c s).2.1 = c)
    (hexn : ∀ n v c s l c' s', explore n v c s = (.ok l, c', s') → l ≠ []) :
    ∀ (depNames : List String) (allDeps : List (String × String)) (count : Nat)
      (st : FetchSt), count < mt →
      (generateDependencyCombinations reg sv mt explore depNames allDeps count st).1 ≠ []
  | [], _, _, _, _ => by simp [generateDependencyCombinations]
  | currentDep :: remainingDeps, allDeps, count, st, hlt => by
    simp only [generateDependencyCombinations]
    split
    · exact gDC_ne_nil hexc hexn remainingDeps allDeps count _ hlt
    · split
      · exact gDC_ne_nil hexc hexn remainingDeps allDeps count _ hlt
      · next hne =>
        apply gDCVersions_ne_nil hexn
          (gDC_ne_nil hexc hexn remainingDeps allDeps count _ hlt)
        · simpa [List.isEmpty_iff] using hne
        · rw [gDC_count hexc]
          exact hlt

/-- The exhaustive exploration never yields an empty list of candidates. -/
theorem exploreTree_ne_nil {reg : Registry} {sv : Semver} {mt : Nat} :
    ∀ (fuel depth : Nat) (n v : String) (res : List String) (count : Nat)
      (st : FetchSt) (l : List DependencyNode) (count' : Nat) (st' : FetchSt),
      exploreTree reg sv mt fuel depth n v res count st = (.ok l, count', st') →
      l ≠ []
  | 0, depth, n, v, res, count, st, l, count', st', h => by
    simp only [exploreTree, Prod.mk.injEq, Except.ok.injEq] at h
    rcases h with ⟨rfl, -, -⟩
    simp
  | fuel+1, depth, n, v, res, count, st, l, count', st', h => by
    simp only [exploreTree] at h
    split at h
    · simp only [Prod.mk.injEq, Except.ok.injEq] at h
      rcases h with ⟨rfl, -, -⟩
      simp
    · next hguard =>
      split at h
      · simp at h
      · next metadata st₁ heq1 =>
        split at h
        · simp only [Prod.mk.injEq, Except.ok.injEq] at h
          rcases h with ⟨rfl, -, -⟩
          simp
        · next versionData heq2 =>
          split at h
          · simp only [Prod.mk.injEq, Except.ok.injEq] at h
            rcases h with ⟨rfl, -, -⟩
            simp
          · simp only [Prod.mk.injEq, Except.ok.injEq] at h
            rcases h with ⟨rfl, -, -⟩
            push_neg at hguard
            have hlt : count < mt := by omega
            have hcombo := @gDC_ne_nil reg sv mt
              (fun n' v' c' s' =>
                exploreTree reg sv mt fuel (depth + 1) n' v'
                  ((n ++ "@" ++ v) :: res) c' s')
              (fun n' v' c' s' =>
                exploreTree_count fuel (depth + 1) n' v'
                  ((n ++ "@" ++ v) :: res) c' s' (Nat.succ_ne_zero depth))
              (fun n' v' c' s' l' c'' s'' hh =>
                exploreTree_ne_nil fuel (depth + 1) n' v'
                  ((n ++ "@" ++ v) :: res) c' s' l' c'' s'' hh)
              (List.map Prod.fst (getDependencies versionData))
              (getDependencies versionData) count st₁ hlt
            have hcount := @gDC_count reg sv mt
              (fun n' v' c' s' =>
                exploreTree reg sv mt fuel (depth + 1) n' v'
                  ((n ++ "@" ++ v) :: res) c' s')
              (fun n' v' c' s' =>
                exploreTree_count fuel (depth + 1) n' v'
                  ((n ++ "@" ++ v) :: res) c' s' (Nat.succ_ne_zero depth))
              (List.map Prod.fst (getDependencies versionData))
              (getDependencies versionData) count st₁
            intro hl
            have hpos := @emitLoop_pos mt (depth == 0) n v
              (generateDependencyCombinations reg sv mt
                (fun n' v' c' s' =>
                  exploreTree reg sv mt fuel (depth + 1) n' v'
                    ((n ++ "@" ++ v) :: res) c' s')
                (List.map Prod.fst (getDependencies versionData))
                (getDependencies versionData) count st₁).1
              ((generateDependencyCombinations reg sv mt
                (fun n' v' c' s' =>
                  exploreTree reg sv mt fuel (depth + 1) n' v'
                    ((n ++ "@" ++ v) :: res) c' s')
                (List.map Prod.fst (getDependencies versionData))
                (getDependencies versionData) count st₁).2.1)
              hcombo (by rw [hcount]; exact hlt)
            rw [hl] at hpos
            simp at hpos

/-- `exploreTree_height` restated from the first projection only. -/
theorem exploreTree_height_fst {reg : Registry} {sv : Semver} {mt : Nat}
    (fuel depth : Nat) (n v : String) (res : List String) (count : Nat)
    (st : FetchSt) (l : List DependencyNode)
    (h : (exploreTree reg sv mt fuel depth n v res count st).1 = .ok l) :
    ∀ t ∈ l, heightN t ≤ fuel + 1 := by
  have he : exploreTree reg sv mt fuel depth n v res count st =
      (.ok l, (exploreTree reg sv mt fuel depth n v res count st).2.1,
        (exploreTree reg sv mt fuel depth n v res count st).2.2) := by
    rw [← h]
  exact exploreTree_height fuel depth n v res count st l _ _ he

/-- `exploreTree_ne_nil` restated from the first projection only. -/
theorem exploreTree_ne_nil_fst {reg : Registry} {sv : Semver} {mt : Nat}
    (fuel depth : Nat) (n v : String) (res : List String) (count : Nat)
    (st : FetchSt) (l : List DependencyNode)
    (h : (exploreTree reg sv mt fuel depth n v res count st).1 = .ok l) :
    l ≠ [] := by
  have he : exploreTree reg sv mt fuel depth n v res count st =
      (.ok l, (exploreTree reg sv mt fuel depth n v res count st).2.1,
        (exploreTree reg sv mt fuel depth n v res count st).2.2) := by
    rw [← h]
  exact exploreTree_ne_nil fuel depth n v res count st l _ _ he

/-- `resolveDependencyTree_height` restated from the first projection only. -/
theorem resolveDependencyTree_height_fst {reg : Registry} {sv : Semver}
    (fuel : Nat) (n v : String) (res : List String) (st : FetchSt)
    (t : DependencyNode)
    (h : (resolveDependencyTree reg sv fuel n v res st).1 = .ok t) :
    heightN t ≤ fuel + 1 := by
  have he : resolveDependencyTree reg sv fuel n v res st =
      (.ok t, (resolveDependencyTree reg sv fuel n v res st).2) := by
    rw [← h]
  exact resolveDependencyTree_height fuel n v res st t _ he

/-- When this node's metadata is available (cached or fetched), exploration
returns yields rather than a thrown error. -/
theorem exploreTree_root_ok {reg : Registry} {sv : Semver} {mt : Nat}
    {fuel depth : Nat} {n v : String} {res : List String} {count : Nat}
    {st : FetchSt} {m : PackageMetadata}
    (hm : (getCachedMetadata reg st n).1 = some m) :
    ∃ l count' st',
      exploreTree reg sv mt (fuel + 1) depth n v res count st =
        (.ok l, count', st') := by
  rcases heq : getCachedMetadata reg st n with ⟨o, st₁⟩
  rcases o with - | m'
  · rw [heq] at hm
    simp at hm
  · simp only [exploreTree, heq]
    split
    · exact ⟨_, _, _, rfl⟩
    · split
      · exact ⟨_, _, _, rfl⟩
      · split
        · exact ⟨_, _, _, rfl⟩
        · exact ⟨_, _, _, rfl⟩

/-! ## Fixture computations -/

/-- The exhaustive enumeration over the fixture at `maxTrees = 10`. -/
theorem fixtureGen10 :
    generateAllPossibleTrees fixtureReg semverFix 10 10 "A" "1.0.0" st0 =
      (.ok [fixTreeHigh, fixTreeLow], fixStF) := rfl

/-- The exhaustive enumeration over the fixture at `maxTrees = 1000` (the
`findTreeByHash` default). -/
theorem fixtureGen1000 :
    generateAllPossibleTrees fixtureReg semverFix 10 1000 "A" "1.0.0" st0 =
      (.ok [fixTreeHigh, fixTreeLow], fixStF) := rfl

/-- Serialization of the higher-version fixture tree. -/
theorem serialize_fixTreeHigh : serializeTree fixTreeHigh = "A@1.0.0\n  B@1.1.0" := rfl

/-- Serialization of the lower-version fixture tree. -/
theorem serialize_fixTreeLow : serializeTree fixTreeLow = "A@1.0.0\n  B@1.0.0" := rfl

/-! ## Claim theorems -/

/-- Claim C1: for a dependency edge the exhaustive search explores exactly the
first 3 elements of the matching-version list sorted descending (the
definition of `generateDependencyCombinations` takes `(getMatchingVersions
…).take 3`, in order), and candidate trees are enumerated with higher
dependency versions first: on the fixture (A@1.0.0 depends on B `^1.0.0`,
registry knows B@1.0.0 and B@1.1.0, both dependency-free),
`generateAllPossibleTrees` with `maxTrees = 10` yields exactly two distinct
trees, the one containing B@1.1.0 strictly before the one containing
B@1.0.0. -/
theorem c1_exhaustive_fixture_enumeration :
    generateAllPossibleTrees fixtureReg semverFix 10 10 "A" "1.0.0" st0 =
      (.ok [fixTreeHigh, fixTreeLow], fixStF) ∧
    fixTreeHigh = .mk "A" "1.0.0" [("B", .mk "B" "1.1.0" [])] ∧
    fixTreeLow = .mk "A" "1.0.0" [("B", .mk "B" "1.0.0" [])] ∧
    serializeTree fixTreeHigh ≠ serializeTree fixTreeLow ∧
    getMatchingVersions semverFix metaB "^1.0.0" = ["1.1.0", "1.0.0"] ∧
    (getMatchingVersions semverFix metaB "^1.0.0").take 3 = ["1.1.0", "1.0.0"] :=
  ⟨fixtureGen10, rfl, rfl, by decide, rfl, rfl⟩

/-- Claim C4: the greedy resolver resolves each dependency edge to the first
(highest) element of the matching-version list (`resolveDeps` recurses on the
head of `getMatchingVersions`): on the fixture, resolving A@1.0.0 picks
B@1.1.0 and the serialization is `"A@1.0.0\n  B@1.1.0"`. -/
theorem c4_greedy_picks_highest :
    resolveDependencyTreeTop fixtureReg semverFix 10 "A" "1.0.0" st0 =
      (.ok fixTreeHigh, fixStF) ∧
    serializeTree fixTreeHigh = "A@1.0.0\n  B@1.1.0" :=
  ⟨rfl, rfl⟩

/-- Claim C5 is false on the code: when the requested root version is absent
from the metadata, `exploreTree` yields a placeholder leaf rather than
throwing (resolver.ts lines 161-164), so `generateAllPossibleTrees` yields a
tree and `resolveAndHash` returns it — neither fails with
`VersionNotFoundError`. -/
theorem c5_counterexample_placeholder_yielded :
    generateAllPossibleTrees fixtureReg semverFix 10 1000 "A" "9.9.9" st0 =
      (.ok [createEmptyNode "A" "9.9.9"], ⟨[("A", metaA)], ["A"]⟩) ∧
    (resolveAndHash fixtureReg semverFix (fun s => s) 10 "A" "9.9.9" st0).1 =
      .ok (createEmptyNode "A" "9.9.9", "A@9.9.9") :=
  ⟨rfl, rfl⟩

/-- Claim C5 amended: only the greedy resolver (`resolveDependencyTree`)
fails with `VersionNotFoundError` when the requested root version is absent;
`generateAllPossibleTrees` instead yields a single placeholder leaf with an
empty children map, `resolveAndHash` returns that placeholder with its hash,
and `findTreeByHash` hashes it and returns its scan result (null when no
match) — none of the generator-based operations raise. -/
theorem c5_amended_root_version_missing :
    (resolveDependencyTreeTop fixtureReg semverFix 10 "A" "9.9.9" st0).1 =
      .error "Version 9.9.9 not found for package A" ∧
    (∀ digest : String → String, ∀ target : String,
      (findTreeByHash fixtureReg semverFix digest 10 1000 "A" "9.9.9" target st0).1 =
        .ok (searchLoop digest target [createEmptyNode "A" "9.9.9"] 0)) ∧
    (∀ digest : String → String,
      (resolveAndHash fixtureReg semverFix digest 10 "A" "9.9.9" st0).1 =
        .ok (createEmptyNode "A" "9.9.9", digest "A@9.9.9")) :=
  ⟨rfl, fun _ _ => rfl, fun _ => rfl⟩

/-- Claim C6 is false on the code: `metadataCache` is declared at module
scope (resolver.ts line 21) and never cleared, so the state left by one
top-level call is seen by the next.  Starting from a fresh module state, one
`resolveAndHash` call fetches A and B; a second identical call returns the
same result with the module state unchanged — its first references to A and
to B trigger no registry fetch. -/
theorem c6_counterexample_cache_shared_across_calls :
    (resolveAndHash fixtureReg semverFix (fun s => s) 10 "A" "1.0.0" st0).2 = fixStF ∧
    fixStF.log = ["A", "B"] ∧
    resolveAndHash fixtureReg semverFix (fun s => s) 10 "A" "1.0.0" fixStF =
      ((resolveAndHash fixtureReg semverFix (fun s => s) 10 "A" "1.0.0" st0).1, fixStF) :=
  ⟨rfl, rfl, rfl⟩

/-- Claim C6 amended: the metadata cache is module-scoped and persists across
top-level calls; a package cached by an earlier call is returned without any
new registry fetch, so only the first reference across the module lifetime —
not per top-level call — triggers a fetch. -/
theorem c6_amended_cache_hit_no_fetch (reg : Registry) (st : FetchSt)
    (packageName : String) (m : PackageMetadata)
    (h : st.cache.lookup packageName = some m) :
    getCachedMetadata reg st packageName = (some m, st) := by
  simp [getCachedMetadata, h]

/-- Witness for the amended C6: after the fixture call cached A, a further
reference to A is a cache hit that performs no fetch. -/
theorem c6_amended_cache_hit_no_fetch_w :
    fixStF.cache.lookup "A" = some metaA ∧
    getCachedMetadata fixtureReg fixStF "A" = (some metaA, fixStF) :=
  ⟨rfl, c6_amended_cache_hit_no_fetch fixtureReg fixStF "A" metaA rfl⟩

/-- Claim C2 is false at `maxTrees = 0`: the budget guard (resolver.ts line
150, `treeCount.count >= maxTrees`) fires at the root and yields a
placeholder leaf, so the generator emits one tree although the budget is
zero. -/
theorem c2_counterexample_budget_zero :
    generateAllPossibleTrees fixtureReg semverFix 10 0 "A" "1.0.0" st0 =
      (.ok [createEmptyNode "A" "1.0.0"], st0) ∧
    ¬([createEmptyNode "A" "1.0.0"].length ≤ 0) :=
  ⟨rfl, by decide⟩

/-- Claim C2 amended: for every `maxTrees = k` with `k ≥ 1`,
`generateAllPossibleTrees` yields at most `k` root-level trees, for every
registry, semver instance, package, version and module state; at `k = 0` the
root budget guard yields exactly one placeholder leaf instead. -/
theorem c2_amended_budget_respected (reg : Registry) (sv : Semver)
    (maxDepth maxTrees : Nat) (n v : String) (st : FetchSt)
    (hk : 1 ≤ maxTrees) (l : List DependencyNode)
    (h : (generateAllPossibleTrees reg sv maxDepth maxTrees n v st).1 = .ok l) :
    l.length ≤ maxTrees := by
  simp only [generateAllPossibleTrees] at h
  simp only [exploreTree] at h
  split at h
  · simp only [Except.ok.injEq] at h
    rw [← h]
    simpa using hk
  · split at h
    · simp at h
    · split at h
      · simp only [Except.ok.injEq] at h
        rw [← h]
        simpa using hk
      · split at h
        · simp only [Except.ok.injEq] at h
          rw [← h]
          simpa using hk
        · simp only [Except.ok.injEq] at h
          rw [← h]
          calc (emitLoop maxTrees (0 == 0) n v _ _).1.length ≤ maxTrees - _ :=
                emitLoop_length _ _
            _ ≤ maxTrees := Nat.sub_le _ _

/-- Witness for the amended C2: on the fixture with `maxTrees = 1` the
generator yields exactly one tree, within the budget. -/
theorem c2_amended_budget_respected_w :
    (1 : Nat) ≤ 1 ∧ [fixTreeHigh].length ≤ 1 :=
  ⟨Nat.le_refl 1,
    c2_amended_budget_respected fixtureReg semverFix 10 1 "A" "1.0.0" st0
      (Nat.le_refl 1) [fixTreeHigh] rfl⟩

/-- Claim C3: `serializeTree` joins, with single newlines and no trailing
newline, one line per node, produced in pre-order with children visited in
ascending name order; each line is `indent ++ name ++ "@" ++ version` where
the indent is two spaces repeated depth times (`lineOf` applied to the
pre-order listing, which carries each node's depth); hence the number of
lines equals the number of nodes.  The child sort is stable-sorted by the
name order, which is total and transitive. -/
theorem c3_serialization_shape :
    (∀ t : DependencyNode,
      serializeTree t = String.intercalate "\n" (serializeParts t 0)) ∧
    (∀ (t : DependencyNode) (d : Nat),
      serializeParts t d = (preorderNodes t d).map lineOf) ∧
    (∀ (t : DependencyNode) (d : Nat),
      (serializeParts t d).length = nodeCount t) ∧
    (∀ l : List (String × DependencyNode),
      List.Sorted (fun a b : String × DependencyNode => nameLe a.1 b.1 = true)
        (sortPairs l)) :=
  ⟨fun _ => rfl, serializeParts_eq_preorder, serializeParts_length,
    sortPairs_sorted⟩

/-- Claim C7: both the greedy resolver and the exhaustive generator are
bounded — every returned tree has height at most `maxDepth + 2` for every
registry (cyclic ones included), every semver instance and every state,
because the guards return a placeholder leaf instead of recursing; on the
cyclic fixture (A depends on B, B depends on A) both produce exactly the tree
whose repeated `A@1.0.0` at the cycle point is a placeholder leaf with no
children. -/
theorem c7_cycle_and_depth_guard :
    (∀ (reg : Registry) (sv : Semver) (maxDepth : Nat) (n v : String)
        (st : FetchSt) (t : DependencyNode),
        (resolveDependencyTreeTop reg sv maxDepth n v st).1 = .ok t →
        heightN t ≤ maxDepth + 2) ∧
    (∀ (reg : Registry) (sv : Semver) (maxDepth maxTrees : Nat) (n v : String)
        (st : FetchSt) (l : List DependencyNode),
        (generateAllPossibleTrees reg sv maxDepth maxTrees n v st).1 = .ok l →
        ∀ t ∈ l, heightN t ≤ maxDepth + 2) ∧
    resolveDependencyTreeTop cyclicReg semverFix 10 "A" "1.0.0" st0 =
      (.ok cycTree, cycStF) ∧
    generateAllPossibleTrees cyclicReg semverFix 10 10 "A" "1.0.0" st0 =
      (.ok [cycTree], cycStF) ∧
    cycTree =
      .mk "A" "1.0.0" [("B", .mk "B" "1.0.0" [("A", createEmptyNode "A" "1.0.0")])] := by
  refine ⟨?_, ?_, rfl, rfl, rfl⟩
  · intro reg sv maxDepth n v st t h
    simp only [resolveDependencyTreeTop] at h
    exact resolveDependencyTree_height_fst (maxDepth + 1) n v [] st t h
  · intro reg sv maxDepth maxTrees n v st l h t ht
    simp only [generateAllPossibleTrees] at h
    exact exploreTree_height_fst (maxDepth + 1) 0 n v [] 0 st l h t ht

/-- Witness for C7: the cyclic fixture's greedy tree satisfies the height
bound. -/
theorem c7_cycle_and_depth_guard_w : heightN cycTree ≤ 12 :=
  c7_cycle_and_depth_guard.1 cyclicReg semverFix 10 "A" "1.0.0" st0 cycTree rfl

/-- Claim C8: the serialization — and hence the hash, for every digest — of a
tree does not depend on the insertion order of the children maps: two trees
with the same canonical form (same name, version and set-keyed children
mapping at every node, i.e. equal after recursively sorting children by name)
serialize and hash identically. -/
theorem c8_hash_stable_under_insertion_order (t₁ t₂ : DependencyNode)
    (h : canon t₁ = canon t₂) :
    serializeTree t₁ = serializeTree t₂ ∧
    ∀ digest : String → String, hashTree digest t₁ = hashTree digest t₂ := by
  have hs : serializeTree t₁ = serializeTree t₂ := by
    unfold serializeTree
    rw [← serializeParts_canon t₁ 0, ← serializeParts_canon t₂ 0, h]
  exact ⟨hs, fun digest => by unfold hashTree; rw [hs]⟩

/-- A node with two children inserted in one order. -/
def c8TreeBC : DependencyNode :=
  .mk "A" "1.0.0" [("B", .mk "B" "1.0.0" []), ("C", .mk "C" "2.0.0" [])]

/-- The same node with the children inserted in the other order. -/
def c8TreeCB : DependencyNode :=
  .mk "A" "1.0.0" [("C", .mk "C" "2.0.0" []), ("B", .mk "B" "1.0.0" [])]

/-- Witness for C8: reordering the fixture node's children leaves the
serialization unchanged. -/
theorem c8_hash_stable_under_insertion_order_w :
    canon c8TreeBC = canon c8TreeCB ∧ serializeTree c8TreeBC = serializeTree c8TreeCB :=
  ⟨rfl, (c8_hash_stable_under_insertion_order c8TreeBC c8TreeCB rfl).1⟩

/-- Claim C9: `findTreeByHash` scans the generator's candidates in generation
order, counting each candidate pulled, and returns on the first hash match
the record with that candidate's 1-based position; exhaustion without a match
returns null, not an error.  On the fixture, a target equal to the hash of
`"A@1.0.0\n  B@1.0.0"` (assuming the digest does not collide on the two
candidate serializations) returns that exact tree with `treesExplored = 2`,
and a target matching neither candidate returns null. -/
theorem c9_find_tree_by_hash (digest : String → String)
    (hcoll : digest "A@1.0.0\n  B@1.1.0" ≠ digest "A@1.0.0\n  B@1.0.0") :
    (findTreeByHash fixtureReg semverFix digest 10 1000 "A" "1.0.0"
        (digest "A@1.0.0\n  B@1.0.0") st0).1 =
      .ok (some ⟨fixTreeLow, digest "A@1.0.0\n  B@1.0.0", 2⟩) ∧
    (∀ target : String, target ≠ digest "A@1.0.0\n  B@1.1.0" →
      target ≠ digest "A@1.0.0\n  B@1.0.0" →
      (findTreeByHash fixtureReg semverFix digest 10 1000 "A" "1.0.0" target st0).1 =
        .ok none) := by
  constructor
  · simp only [findTreeByHash, fixtureGen1000]
    simp only [searchLoop, hashTree, serialize_fixTreeHigh, serialize_fixTreeLow]
    rw [beq_eq_false_iff_ne.mpr hcoll]
    simp
  · intro target h1 h2
    simp only [findTreeByHash, fixtureGen1000]
    simp only [searchLoop, hashTree, serialize_fixTreeHigh, serialize_fixTreeLow]
    rw [beq_eq_false_iff_ne.mpr (Ne.symm h1), beq_eq_false_iff_ne.mpr (Ne.symm h2)]
    simp

/-- Witness for C9: with the identity digest the two serializations differ,
and the search returns the B@1.0.0 tree as the second candidate. -/
theorem c9_find_tree_by_hash_w :
    ("A@1.0.0\n  B@1.1.0" ≠ "A@1.0.0\n  B@1.0.0") ∧
    (findTreeByHash fixtureReg semverFix (fun s => s) 10 1000 "A" "1.0.0"
        "A@1.0.0\n  B@1.0.0" st0).1 =
      .ok (some ⟨fixTreeLow, "A@1.0.0\n  B@1.0.0", 2⟩) :=
  ⟨by decide, (c9_find_tree_by_hash (fun s => s) (by decide)).1⟩

/-- Claim C10: whenever the root package's metadata is available (the fetch
via the cache succeeds), `generateAllPossibleTrees` yields at least one tree
— a placeholder leaf when the version is unknown, the root has no
dependencies, or `maxTrees` is 0 — and consequently the final
`Failed to resolve` throw in `resolveAndHash` is unreachable. -/
theorem c10_root_fetch_ok_yields (reg : Registry) (sv : Semver)
    (maxDepth maxTrees : Nat) (n v : String) (st : FetchSt) (m : PackageMetadata)
    (hm : (getCachedMetadata reg st n).1 = some m) :
    (∃ l, (generateAllPossibleTrees reg sv maxDepth maxTrees n v st).1 = .ok l ∧
      1 ≤ l.length) ∧
    (∀ digest : String → String, ∃ r,
      (resolveAndHash reg sv digest maxDepth n v st).1 = .ok r) := by
  constructor
  · obtain ⟨l, c', s', heq⟩ :=
      @exploreTree_root_ok reg sv maxTrees maxDepth 0 n v [] 0 st m hm
    refine ⟨l, ?_, ?_⟩
    · simp only [generateAllPossibleTrees, heq]
    · have hne := exploreTree_ne_nil_fst (maxDepth + 1) 0 n v [] 0 st l (by rw [heq])
      rcases l with _ | ⟨t, ts⟩
      · exact absurd rfl hne
      · simp
  · intro digest
    obtain ⟨l, c', s', heq⟩ :=
      @exploreTree_root_ok reg sv 1 maxDepth 0 n v [] 0 st m hm
    have hg : generateAllPossibleTrees reg sv maxDepth 1 n v st = (.ok l, s') := by
      simp only [generateAllPossibleTrees, heq]
    have hne := exploreTree_ne_nil_fst (maxDepth + 1) 0 n v [] 0 st l (by rw [heq])
    rcases l with _ | ⟨t, ts⟩
    · exact absurd rfl hne
    · exact ⟨(t, hashTree digest t), by simp only [resolveAndHash, hg]⟩

/-- Witness for C10: on the fixture the root fetch succeeds and the generator
yields at least one tree. -/
theorem c10_root_fetch_ok_yields_w :
    (getCachedMetadata fixtureReg st0 "A").1 = some metaA ∧
    (∃ l, (generateAllPossibleTrees fixtureReg semverFix 10 10 "A" "1.0.0" st0).1 =
        .ok l ∧ 1 ≤ l.length) :=
  ⟨rfl,
    (c10_root_fetch_ok_yields fixtureReg semverFix 10 10 "A" "1.0.0" st0 metaA rfl).1⟩
